import Mathlib

/-!
Verification development for the `dilax` likelihood / parameter system.

The numeric arrays of the source are embedded elementwise: an array over bins
is a function `ι → ℚ` (exact arithmetic stands in for the floating-point
arrays; `ℝ` is used only where the source applies `exp`).  Values that can be
`+inf`/`-inf` (the boundary penalty and the negative log-likelihood) live in
`EReal`.  External collaborators (the `Model` container, `jax` autodiff,
`jnp.linalg.inv`, `jax.random.multivariate_normal`, `jax.scipy` log-pmf) are
modelled from the specification's external-interface contract and passed in as
explicit function arguments where their exact definition is irrelevant to the
property at hand.
-/

set_option maxHeartbeats 1000000

/-- Constraint-PDF kinds of the external `dilax.pdf` module (`HashablePDF`):
`Flat`, `Gauss(mean, width)`, `Poisson(lamb)`.  Only their identity as
elements of a parameter's constraint set matters here. -/
inductive HashablePDF where
  | Flat : HashablePDF
  | Gauss : ℚ → ℚ → HashablePDF
  | Poisson : ℚ → HashablePDF
deriving DecidableEq

/-- Embeds `dilax.parameter.Parameter`: a value, static bounds `(lower, upper)` and a
set of constraint PDFs accumulated from attached effects. -/
structure Parameter where
  value : ℚ
  bounds : ℚ × ℚ
  constraints : Finset HashablePDF

/-- Embeds `Parameter.__init__`: stores `value` and `bounds` and initialises
`constraints` to the empty set. -/
def Parameter.init (value : ℚ) (bounds : ℚ × ℚ) : Parameter :=
  { value := value, bounds := bounds, constraints := ∅ }

/-- Embeds `Parameter.update`: re-runs the constructor with the new value and the old
bounds (`self.__class__(value=value, bounds=self.bounds)`). -/
def Parameter.update (p : Parameter) (value : ℚ) : Parameter :=
  Parameter.init value p.bounds

/-- Embeds `Parameter.boundary_penalty`:
`jnp.where((value < bounds[0]) | (value > bounds[1]), jnp.inf, 0)`. -/
def Parameter.boundary_penalty (p : Parameter) : EReal :=
  if p.value < p.bounds.1 ∨ p.bounds.2 < p.value then ⊤ else 0

/-- Embeds `dilax.parameter.Effect`: a constraint PDF together with a scale-factor
function of `(parameter, sumw)`; `α` is the element type of the produced scale
factor, `ι` indexes the bins. -/
structure Effect (α ι : Type) where
  constraint : HashablePDF
  scale_factor : Parameter → (ι → α) → (ι → α)

/-- Embeds `dilax.parameter.unconstrained`: flat constraint, scale factor is the bare
parameter value (broadcast over the bins). -/
def unconstrained {ι : Type} : Effect ℚ ι :=
  { constraint := HashablePDF.Flat
    scale_factor := fun p _ _ => p.value }

/-- Embeds `dilax.parameter.gauss`: standard-normal constraint, scale factor
`parameter.value * width + 1`. -/
def gauss {ι : Type} (width : ℚ) : Effect ℚ ι :=
  { constraint := HashablePDF.Gauss 0 1
    scale_factor := fun p _ _ => p.value * width + 1 }

/-- Embeds `jnp.polyval(p, x)`: Horner evaluation, highest coefficient first. -/
def jnp_polyval (coeffs : List ℚ) (x : ℚ) : ℚ :=
  coeffs.foldl (fun acc c => acc * x + c) 0

/-- The `_asym_poly` coefficient array `jnp.array([3.0, -10.0, 15.0, 0.0]) / 8.0`
of `shape.vshift`. -/
def asymPoly : List ℚ := [3 / 8, -10 / 8, 15 / 8, 0]

/-- Embeds `shape.vshift`: smooth vertical-shift template morphing.
`value` is `parameter.value`; `up`, `down`, `sumw` are the per-bin templates. -/
def shape.vshift {ι : Type} (up down : ι → ℚ) (value : ℚ) (sumw : ι → ℚ) : ι → ℚ :=
  fun i =>
    let dx_sum := up i + down i - 2 * sumw i
    let dx_diff := up i - down i
    let abs_value := |value|
    (1 / 2) *
      (dx_diff * value +
        dx_sum * (if 1 < abs_value then abs_value else jnp_polyval asymPoly (value * value)))

/-- Embeds `shape.scale_factor`:
`jnp.clip((sumw + vshift) / sumw, a_min=1e-5)`, i.e. the ratio floored at
`1e-5 = 1/100000`. -/
def shape.scale_factor {ι : Type} (up down : ι → ℚ) (value : ℚ) (sumw : ι → ℚ) : ι → ℚ :=
  fun i => max ((sumw i + shape.vshift up down value sumw i) / sumw i) (1 / 100000)

/-- Embeds `dilax.parameter.shape`: standard-normal constraint, scale factor given by
`shape.scale_factor`. -/
def shape {ι : Type} (up down : ι → ℚ) : Effect ℚ ι :=
  { constraint := HashablePDF.Gauss 0 1
    scale_factor := fun p sumw => shape.scale_factor up down p.value sumw }

/-- The `width` field of `lnN`: either a symmetric scalar width or an
asymmetric `(down, up)` pair. -/
inductive lnNWidth where
  | sym : ℚ → lnNWidth
  | asym : ℚ → ℚ → lnNWidth

/-- Embeds `lnN.scale`: for an asymmetric width the effective width is
`jnp.where(parameter.value > 0, up, down)`; a symmetric width is used as is. -/
def lnN.scale (width : lnNWidth) (value : ℚ) : ℚ :=
  match width with
  | lnNWidth.asym down up => if 0 < value then up else down
  | lnNWidth.sym w => w

/-- Embeds `lnN.scale_factor`: `jnp.exp(parameter.value * width)` with the effective
width of `lnN.scale`. -/
noncomputable def lnN.scale_factor (width : lnNWidth) (value : ℚ) : ℝ :=
  Real.exp ((value * lnN.scale width value : ℚ) : ℝ)

/-- Embeds `dilax.parameter.lnN`: standard-normal constraint, log-normal scale factor. -/
noncomputable def lnN {ι : Type} (width : lnNWidth) : Effect ℝ ι :=
  { constraint := HashablePDF.Gauss 0 1
    scale_factor := fun p _ _ => lnN.scale_factor width p.value }

/-- Embeds `dilax.parameter.modifier`: a `(name, parameter, effect)` triple. -/
structure Modifier (α ι : Type) where
  name : String
  parameter : Parameter
  effect : Effect α ι

/-- Embeds `modifier.__init__`: stores the triple and adds the effect's constraint to
the parameter's constraint set
(`self.parameter.constraints.add(self.effect.constraint)`); the embedding
returns the modifier holding the so-updated parameter. -/
def mkModifier {α ι : Type} (name : String) (parameter : Parameter) (effect : Effect α ι) :
    Modifier α ι :=
  { name := name
    parameter := { parameter with constraints := insert effect.constraint parameter.constraints }
    effect := effect }

/-- Embeds `modifier.scale_factor`: delegate to the effect at the stored parameter. -/
def Modifier.scale_factor {α ι : Type} (m : Modifier α ι) (sumw : ι → α) : ι → α :=
  m.effect.scale_factor m.parameter sumw

mutual
/-- A `compose` tree: children are either leaf modifiers or nested
compositions (`compose` accepts both). -/
inductive ModTree (α ι : Type) where
  | leaf : Modifier α ι → ModTree α ι
  | comp : ModTreeList α ι → ModTree α ι

/-- The ordered tuple of children of a composition. -/
inductive ModTreeList (α ι : Type) where
  | nil : ModTreeList α ι
  | cons : ModTree α ι → ModTreeList α ι → ModTreeList α ι
end

mutual
/-- Embeds `compose.names`: the in-order flattening of leaf modifier names; a leaf
contributes its own name, a nested composition contributes its `names`. -/
def ModTree.names {α ι : Type} : ModTree α ι → List String
  | ModTree.leaf m => [m.name]
  | ModTree.comp ts => ModTreeList.names ts

/-- List part of `compose.names`. -/
def ModTreeList.names {α ι : Type} : ModTreeList α ι → List String
  | ModTreeList.nil => []
  | ModTreeList.cons t ts => ModTree.names t ++ ModTreeList.names ts
end

mutual
/-- The in-order list of leaf modifiers of a tree. -/
def ModTree.leaves {α ι : Type} : ModTree α ι → List (Modifier α ι)
  | ModTree.leaf m => [m]
  | ModTree.comp ts => ModTreeList.leaves ts

/-- List part of `ModTree.leaves`. -/
def ModTreeList.leaves {α ι : Type} : ModTreeList α ι → List (Modifier α ι)
  | ModTreeList.nil => []
  | ModTreeList.cons t ts => ModTree.leaves t ++ ModTreeList.leaves ts
end

/-- Python dict assignment `d[k] = v`: replace in place if the key is present,
otherwise append (insertion order preserved). -/
def dictUpdate {β : Type} (d : List (String × β)) (kv : String × β) : List (String × β) :=
  if kv.1 ∈ d.map Prod.fst then d.map (fun p => if p.1 = kv.1 then kv else p) else d ++ [kv]

/-- Python `d.update(xs)`: fold dict assignment over the entries of `xs`. -/
def dictMerge {β : Type} (d : List (String × β)) : List (String × β) → List (String × β)
  | [] => d
  | kv :: rest => dictMerge (dictUpdate d kv) rest

mutual
/-- Embeds `compose.scale_factors`: the dict `name -> broadcast scale factor`,
built by iterating over the children and dict-merging nested compositions. -/
def ModTree.scaleFactors {α ι : Type} [CommMonoid α] :
    ModTree α ι → (ι → α) → List (String × (ι → α))
  | ModTree.leaf m, sumw => [(m.name, m.scale_factor sumw)]
  | ModTree.comp ts, sumw => ModTreeList.scaleFactorsAcc ts sumw []

/-- The loop of `compose.scale_factors`: `sfs` is the accumulator dict. -/
def ModTreeList.scaleFactorsAcc {α ι : Type} [CommMonoid α] :
    ModTreeList α ι → (ι → α) → List (String × (ι → α)) → List (String × (ι → α))
  | ModTreeList.nil, _, acc => acc
  | ModTreeList.cons t ts, sumw, acc =>
      ModTreeList.scaleFactorsAcc ts sumw (dictMerge acc (ModTree.scaleFactors t sumw))
end

/-- Embeds `compose.scale_factor`:
`jnp.prod(jnp.stack(list(scale_factors(sumw).values())), axis=0)` — the
elementwise product of the dict's values. -/
def ModTree.scale_factor {α ι : Type} [CommMonoid α] (t : ModTree α ι) (sumw : ι → α) :
    ι → α :=
  fun i => ((ModTree.scaleFactors t sumw).map (fun p => p.2 i)).prod

/-- Embeds `compose.__call__`: `atleast_1d(scale_factor(sumw)) * sumw` elementwise. -/
def ModTree.call {α ι : Type} [CommMonoid α] (t : ModTree α ι) (sumw : ι → α) : ι → α :=
  fun i => ModTree.scale_factor t sumw i * sumw i

/-- Embeds `compose.__init__`: store the children, compute the in-order flattened
`names`, collect every name occurring more than once, and fail with exactly
that duplicate list if it is non-empty. -/
def composeInit {α ι : Type} (ts : ModTreeList α ι) :
    Except (List String) (ModTree α ι) :=
  let names := ModTreeList.names ts
  let duplicates := names.filter (fun n => 1 < names.count n)
  if duplicates.isEmpty then Except.ok (ModTree.comp ts) else Except.error duplicates

/-- Modelled from the spec: the external `dilax.model.Model` container (§6).
It owns named parameters; `expectationOf` stands for
`evaluate().expectation()` (the total predicted histogram, a function of the
parameters), `expectationsOf` for `evaluate().expectations` (the per-process
expectations), and `constraintsOf` for `parameter_constraints()` (the scalar
constraint-penalty aggregate). -/
structure Model where
  parameters : List (String × Parameter)
  expectationOf : List (String × Parameter) → List ℚ
  expectationsOf : List (String × Parameter) → List (String × List ℚ)
  constraintsOf : List (String × Parameter) → ℚ

/-- Modelled from the spec: `Model.parameter_values`, the mapping
`name -> value` over the owned parameters. -/
def Model.parameter_values (m : Model) : List (String × ℚ) :=
  m.parameters.map (fun p => (p.1, p.2.value))

/-- Modelled from the spec: `Model.update(values)` functionally overrides the
named parameter values (each overridden parameter goes through
`Parameter.update`). -/
def Model.update (m : Model) (values : List (String × ℚ)) : Model :=
  { m with
    parameters := m.parameters.map (fun p =>
      match values.lookup p.1 with
      | some v => (p.1, p.2.update v)
      | none => p) }

/-- Modelled from the spec: `Model.nll_boundary_penalty()`, the sum of
`boundary_penalty` over all owned parameters. -/
noncomputable def Model.nll_boundary_penalty (m : Model) : EReal :=
  (m.parameters.map (fun p => p.2.boundary_penalty)).sum

/-- Modelled from the spec: `Model.parameter_constraints()`. -/
def Model.parameter_constraints (m : Model) : ℚ :=
  m.constraintsOf m.parameters

/-- Modelled from the spec: `Model.evaluate().expectation()`. -/
def Model.expectation (m : Model) : List ℚ :=
  m.expectationOf m.parameters

/-- Embeds `NLL.__call__`: update the model with `values`, evaluate, and return
`-sum(logpdf(obs, expectation) - logpdf(obs, obs) + nll_boundary_penalty +
parameter_constraints)` over the bins.  `logpdf` stands for the external
`jax.scipy.stats.poisson.logpmf`. -/
noncomputable def NLL_call (logpdf : ℚ → ℚ → ℚ) (m : Model) (obs : List ℚ) (values : List (String × ℚ)) :
    EReal :=
  let model := m.update values
  let e := model.expectation
  let nll := List.zipWith
    (fun o ei =>
      (((logpdf o ei - logpdf o o : ℚ) : ℝ) : EReal) + model.nll_boundary_penalty +
        ((model.parameter_constraints : ℝ) : EReal))
    obs e
  Neg.neg nll.sum

/-- Embeds `Hessian.__call__`: default the empty `values` to
`model.parameter_values`, differentiate the NLL twice (`jax.hessian` is
external: `d2 values k1 k2` stands for the second derivative of the NLL with
respect to the parameters named `k1`, `k2` at the point `values`), and reshape
the flattened result into a `len(values) x len(values)` matrix. -/
def Hessian_call (m : Model) (d2 : List (String × ℚ) → String → String → ℚ)
    (values : List (String × ℚ)) : Σ k : ℕ, Matrix (Fin k) (Fin k) ℚ :=
  let vals := if values.isEmpty then m.parameter_values else values
  ⟨vals.length, Matrix.of fun i j =>
    d2 vals ((vals.map Prod.fst).getD i "") ((vals.map Prod.fst).getD j "")⟩

/-- Modelled from the spec: the external `jnp.linalg.inv` under the contract
of §7 — a singular input is a numeric failure surfaced to the caller (`none`),
a non-singular input yields the matrix inverse. -/
noncomputable def jnp_linalg_inv {k : ℕ} (A : Matrix (Fin k) (Fin k) ℚ) :
    Option (Matrix (Fin k) (Fin k) ℚ) :=
  if A.det = 0 then none else some A⁻¹

/-- Embeds `CovMatrix.__call__`: `jnp.linalg.inv(-hessian)` where `hessian` is the
result of `Hessian.__call__`; any failure of the inverse is passed through. -/
noncomputable def CovMatrix_call (m : Model) (d2 : List (String × ℚ) → String → String → ℚ)
    (values : List (String × ℚ)) : Option (Σ k : ℕ, Matrix (Fin k) (Fin k) ℚ) :=
  let H := Hessian_call m d2 values
  (jnp_linalg_inv (-H.2)).map (fun Hinv => ⟨H.1, Hinv⟩)

/-- Embeds `SampleToy.__call__`: default the empty `values`, compute the covariance,
flatten the updated model's parameter values into a mean vector, draw one
multivariate-normal sample with the explicit `key` (`mvn` stands for the
external `jax.random.multivariate_normal`, a pure function of
`(key, mean, cov)`), unflatten, rebuild the model with the sampled values and
return the per-process expectations. -/
noncomputable def SampleToy_call (m : Model) (d2 : List (String × ℚ) → String → String → ℚ)
    (mvn : ℕ → List ℚ → (Σ k : ℕ, Matrix (Fin k) (Fin k) ℚ) → List ℚ)
    (values : List (String × ℚ)) (key : ℕ) : Option (List (String × List ℚ)) :=
  let vals := if values.isEmpty then m.parameter_values else values
  (CovMatrix_call m d2 vals).map (fun cov =>
    let flat := (m.update vals).parameter_values
    let mean := flat.map Prod.snd
    let sampled := mvn key mean cov
    let sampledValues := (flat.map Prod.fst).zip sampled
    let model := m.update sampledValues
    model.expectationsOf model.parameters)

/-- A concrete parameter for the witnesses: value `1`, bounds `(0, 100)`. -/
def pMu : Parameter := Parameter.init 1 (0, 100)

/-- A concrete one-parameter model for the witnesses: one process of constant
expectation `[60]` and zero constraint penalty. -/
def demoModel : Model :=
  { parameters := [("mu", pMu)]
    expectationOf := fun _ => [60]
    expectationsOf := fun _ => [("signal", [60])]
    constraintsOf := fun _ => 0 }

/-- A concrete second-derivative stand-in for the witnesses. -/
def demoD2 : List (String × ℚ) → String → String → ℚ := fun _ _ _ => -1

/-- A concrete multivariate-normal stand-in for the witnesses. -/
def demoMvn : ℕ → List ℚ → (Σ k : ℕ, Matrix (Fin k) (Fin k) ℚ) → List ℚ :=
  fun _ mean _ => mean

/-- A concrete duplicate-name composition argument for the witnesses. -/
def tsDup : ModTreeList ℚ Unit :=
  ModTreeList.cons (ModTree.leaf (mkModifier "a" pMu unconstrained))
    (ModTreeList.cons (ModTree.leaf (mkModifier "a" pMu unconstrained)) ModTreeList.nil)

/-- A concrete well-named composition argument for the witnesses. -/
def tsOk : ModTreeList ℚ Unit :=
  ModTreeList.cons (ModTree.leaf (mkModifier "a" pMu unconstrained))
    (ModTreeList.cons
      (ModTree.comp (ModTreeList.cons (ModTree.leaf (mkModifier "b" pMu (gauss 2)))
        ModTreeList.nil))
      ModTreeList.nil)

/-- The composition built from `tsOk`. -/
def tOk : ModTree ℚ Unit := ModTree.comp tsOk

/-- C10: `Parameter.update` keeps the bounds but re-runs the constructor, so
the returned parameter's constraint set is empty even when the original
parameter had accumulated constraints through modifier construction. -/
theorem parameter_update_resets_constraints {α ι : Type} (p : Parameter) (v : ℚ)
    (modName : String) (e : Effect α ι) :
    (p.update v).bounds = p.bounds ∧ (p.update v).constraints = ∅ ∧
    (mkModifier modName p e).parameter.constraints = insert e.constraint p.constraints ∧
    ((mkModifier modName p e).parameter.update v).constraints = ∅ :=
  ⟨rfl, rfl, rfl, rfl⟩

/-- C6: the shape scale factor is floored at `1e-5` in every element, hence
strictly positive, for every parameter value and nominal yield. -/
theorem shape_scale_factor_floored {ι : Type} (up down sumw : ι → ℚ) (f : ℚ) (i : ι) :
    1 / 100000 ≤ shape.scale_factor up down f sumw i ∧
    0 < shape.scale_factor up down f sumw i :=
  ⟨le_max_right _ _, lt_of_lt_of_le (by norm_num) (le_max_right _ _)⟩

/-- C4: `shape.vshift` vanishes at `0`, hits `up - nominal` at `1` and
`down - nominal` at `-1`, is the pure linear form for `|f| > 1` and the
polynomial blend `polyval([3,-10,15,0]/8, f*f)` for `|f| <= 1`. -/
theorem shape_vshift_properties {ι : Type} (up down sumw : ι → ℚ) (i : ι) (f : ℚ) :
    shape.vshift up down 0 sumw i = 0 ∧
    shape.vshift up down 1 sumw i = up i - sumw i ∧
    shape.vshift up down (-1) sumw i = down i - sumw i ∧
    (1 < |f| → shape.vshift up down f sumw i =
      (1 / 2) * ((up i - down i) * f + (up i + down i - 2 * sumw i) * |f|)) ∧
    (|f| ≤ 1 → shape.vshift up down f sumw i =
      (1 / 2) * ((up i - down i) * f +
        (up i + down i - 2 * sumw i) * jnp_polyval asymPoly (f * f))) := by
  refine ⟨?_, ?_, ?_, fun h => ?_, fun h => ?_⟩
  · norm_num [shape.vshift, jnp_polyval, asymPoly]
  · norm_num [shape.vshift, jnp_polyval, asymPoly]
    ring
  · norm_num [shape.vshift, jnp_polyval, asymPoly]
    ring
  · rw [shape.vshift]
    simp only [if_pos h]
  · rw [shape.vshift]
    simp only [if_neg (not_lt.mpr h)]

/-- Witness for C4: concrete evaluation in the linear-extrapolation regime. -/
theorem shape_vshift_properties_witness :
    shape.vshift (fun _ : Unit => (12 : ℚ)) (fun _ => 8) 2 (fun _ => 10) () =
      (1 / 2) * (((12 : ℚ) - 8) * 2 + ((12 : ℚ) + 8 - 2 * 10) * |(2 : ℚ)|) :=
  (shape_vshift_properties (fun _ : Unit => (12 : ℚ)) (fun _ => 8) (fun _ => 10) () 2).2.2.2.1
    (by norm_num)

/-- C7: the log-normal scale factor is `exp(value * up)` for positive values,
`exp(value * down)` for negative values, `exp(value * width)` for a symmetric
width, and equals `1` at `value = 0`. -/
theorem lnN_scale_factor_spec (down up w v : ℚ) :
    (0 < v → lnN.scale_factor (lnNWidth.asym down up) v = Real.exp ((v : ℝ) * (up : ℝ))) ∧
    (v < 0 → lnN.scale_factor (lnNWidth.asym down up) v = Real.exp ((v : ℝ) * (down : ℝ))) ∧
    lnN.scale_factor (lnNWidth.sym w) v = Real.exp ((v : ℝ) * (w : ℝ)) ∧
    lnN.scale_factor (lnNWidth.asym down up) 0 = 1 ∧
    lnN.scale_factor (lnNWidth.sym w) 0 = 1 := by
  refine ⟨fun h => ?_, fun h => ?_, ?_, ?_, ?_⟩
  · rw [lnN.scale_factor, lnN.scale, if_pos h]
    push_cast
    ring_nf
  · rw [lnN.scale_factor, lnN.scale, if_neg (by exact not_lt.mpr h.le)]
    push_cast
    ring_nf
  · rw [lnN.scale_factor, lnN.scale]
    push_cast
    ring_nf
  · rw [lnN.scale_factor]
    norm_num [Real.exp_zero]
  · rw [lnN.scale_factor]
    norm_num [Real.exp_zero]

/-- Witness for C7: concrete evaluation at `value = 1` with asymmetric width. -/
theorem lnN_scale_factor_spec_witness :
    lnN.scale_factor (lnNWidth.asym (3 / 10) (1 / 5)) 1 =
      Real.exp (((1 : ℚ) : ℝ) * (((1 : ℚ) / 5 : ℚ) : ℝ)) :=
  (lnN_scale_factor_spec (3 / 10) (1 / 5) 0 1).1 (by norm_num)

theorem dictUpdate_of_not_mem {β : Type} (d : List (String × β)) (kv : String × β)
    (h : kv.1 ∉ d.map Prod.fst) : dictUpdate d kv = d ++ [kv] := by
  simp [dictUpdate, h]

theorem dictMerge_of_disjoint {β : Type} (xs : List (String × β)) :
    ∀ d : List (String × β), (∀ k ∈ xs.map Prod.fst, k ∉ d.map Prod.fst) →
      (xs.map Prod.fst).Nodup → dictMerge d xs = d ++ xs := by
  induction xs with
  | nil => intro d _ _; simp [dictMerge]
  | cons kv rest ih =>
    intro d hdisj hnodup
    rw [dictMerge, dictUpdate_of_not_mem d kv (hdisj kv.1 (by simp))]
    simp only [List.map_cons, List.nodup_cons] at hnodup
    rw [ih (d ++ [kv]) ?_ hnodup.2]
    · simp
    · intro k hk
      simp only [List.map_append, List.mem_append, List.map_cons, List.map_nil,
        List.mem_singleton]
      rintro (hkd | hkv)
      · exact hdisj k (by simp [hk]) hkd
      · exact hnodup.1 (hkv ▸ hk)

mutual
theorem ModTree.tree_names_eq_leafNames {α ι : Type} (t : ModTree α ι) :
    t.names = t.leaves.map Modifier.name := by
  cases t with
  | leaf m => rfl
  | comp ts => exact ModTreeList.list_names_eq_leafNames ts

theorem ModTreeList.list_names_eq_leafNames {α ι : Type} (ts : ModTreeList α ι) :
    ts.names = ts.leaves.map Modifier.name := by
  cases ts with
  | nil => rfl
  | cons t rest =>
    rw [ModTreeList.names, ModTreeList.leaves, List.map_append,
      ModTree.tree_names_eq_leafNames t, ModTreeList.list_names_eq_leafNames rest]
end

mutual
theorem ModTree.scaleFactors_eq {α ι : Type} [CommMonoid α] (t : ModTree α ι) (sumw : ι → α)
    (h : t.names.Nodup) :
    t.scaleFactors sumw = t.leaves.map (fun m => (m.name, m.scale_factor sumw)) := by
  cases t with
  | leaf m => rfl
  | comp ts =>
    rw [ModTree.scaleFactors,
      ModTreeList.scaleFactorsAcc_eq ts sumw [] h (by simp)]
    rfl

theorem ModTreeList.scaleFactorsAcc_eq {α ι : Type} [CommMonoid α] (ts : ModTreeList α ι)
    (sumw : ι → α) (acc : List (String × (ι → α)))
    (h : ts.names.Nodup) (hdisj : ∀ k ∈ ts.names, k ∉ acc.map Prod.fst) :
    ModTreeList.scaleFactorsAcc ts sumw acc =
      acc ++ ts.leaves.map (fun m => (m.name, m.scale_factor sumw)) := by
  cases ts with
  | nil => simp [ModTreeList.scaleFactorsAcc, ModTreeList.leaves]
  | cons t rest =>
    rw [ModTreeList.names] at h hdisj
    have ht : (ModTree.names t).Nodup := (List.nodup_append.mp h).1
    have hrest : (ModTreeList.names rest).Nodup := (List.nodup_append.mp h).2.1
    have hd : (ModTree.names t).Disjoint (ModTreeList.names rest) :=
      (List.nodup_append.mp h).2.2
    have hkeys : ((ModTree.leaves t).map (fun m => (m.name, m.scale_factor sumw))).map
        Prod.fst = ModTree.names t := by
      rw [List.map_map, ModTree.tree_names_eq_leafNames t]
      rfl
    have hdisj1 : ∀ k ∈ ((ModTree.leaves t).map
        (fun m => (m.name, m.scale_factor sumw))).map Prod.fst,
        k ∉ acc.map Prod.fst := by
      rw [hkeys]
      intro k hk
      exact hdisj k (List.mem_append.mpr (Or.inl hk))
    have hnodup1 : (((ModTree.leaves t).map
        (fun m => (m.name, m.scale_factor sumw))).map Prod.fst).Nodup := by
      rw [hkeys]
      exact ht
    have hdisj2 : ∀ k ∈ ModTreeList.names rest,
        k ∉ (acc ++ (ModTree.leaves t).map
          (fun m => (m.name, m.scale_factor sumw))).map Prod.fst := by
      intro k hk
      rw [List.map_append, hkeys, List.mem_append]
      rintro (hka | hkt)
      · exact hdisj k (List.mem_append.mpr (Or.inr hk)) hka
      · exact hd hkt hk
    rw [ModTreeList.scaleFactorsAcc, ModTree.scaleFactors_eq t sumw ht,
      dictMerge_of_disjoint _ acc hdisj1 hnodup1,
      ModTreeList.scaleFactorsAcc_eq rest sumw _ hrest hdisj2, ModTreeList.leaves,
      List.map_append, List.append_assoc]
end

theorem mem_filter_dup_iff (names : List String) (n : String) :
    n ∈ names.filter (fun m => 1 < names.count m) ↔ 1 < names.count n := by
  rw [List.mem_filter]
  constructor
  · intro h
    simpa using h.2
  · intro h
    refine ⟨List.count_pos_iff.mp (by omega), by simpa using h⟩

theorem filter_dup_eq_nil_iff (names : List String) :
    names.filter (fun m => 1 < names.count m) = [] ↔ names.Nodup := by
  rw [List.filter_eq_nil_iff, List.nodup_iff_count_le_one]
  constructor
  · intro h a
    by_cases ha : a ∈ names
    · have := h a ha
      simp only [decide_eq_true_eq] at this
      omega
    · rw [List.count_eq_zero.mpr ha]
      omega
  · intro h n _
    simp only [decide_eq_true_eq, not_lt]
    exact h n

theorem composeInit_ok {α ι : Type} {ts : ModTreeList α ι} {t : ModTree α ι}
    (h : composeInit ts = Except.ok t) : t = ModTree.comp ts ∧ ts.names.Nodup := by
  rw [composeInit] at h
  by_cases he : (ModTreeList.names ts).filter
      (fun n => 1 < (ModTreeList.names ts).count n) = []
  · rw [if_pos (List.isEmpty_iff.mpr he)] at h
    exact ⟨(Except.ok.injEq _ _ |>.mp h).symm, (filter_dup_eq_nil_iff _).mp he⟩
  · rw [if_neg (fun hc => he (List.isEmpty_iff.mp hc))] at h
    exact absurd h (by simp)

/-- C3: constructing a composition succeeds exactly when the in-order
flattening of leaf modifier names over the whole tree is pairwise distinct;
on failure the error lists precisely the names occurring more than once. -/
theorem composeInit_spec {α ι : Type} (ts : ModTreeList α ι) :
    ((∃ t, composeInit ts = Except.ok t) ↔ ts.names.Nodup) ∧
    (∀ dups, composeInit ts = Except.error dups →
      ∀ n, n ∈ dups ↔ 1 < ts.names.count n) ∧
    ts.names = ts.leaves.map Modifier.name := by
  refine ⟨⟨fun ⟨t, ht⟩ => (composeInit_ok ht).2, fun h => ?_⟩, fun dups hd n => ?_, ?_⟩
  · refine ⟨ModTree.comp ts, ?_⟩
    rw [composeInit, if_pos (List.isEmpty_iff.mpr ((filter_dup_eq_nil_iff _).mpr h))]
  · rw [composeInit] at hd
    by_cases he : (ModTreeList.names ts).filter
        (fun m => 1 < (ModTreeList.names ts).count m) = []
    · rw [if_pos (List.isEmpty_iff.mpr he)] at hd
      exact absurd hd (by simp)
    · rw [if_neg (fun hc => he (List.isEmpty_iff.mp hc))] at hd
      have : dups = (ModTreeList.names ts).filter
          (fun m => 1 < (ModTreeList.names ts).count m) :=
        ((Except.error.injEq _ _).mp hd).symm
      rw [this]
      exact mem_filter_dup_iff _ n
  · exact ModTreeList.list_names_eq_leafNames ts

/-- Witness for C3: a composition of two leaves both named `a` fails at
construction with an error containing the duplicated name. -/
theorem composeInit_spec_witness : 1 < (ModTreeList.names tsDup).count "a" :=
  ((composeInit_spec tsDup).2.1 ["a", "a"] rfl "a").mp (by decide)

/-- C2: for a successfully constructed composition, the combined scale factor
is the elementwise product of the scale factors of all flattened leaf
modifiers, and applying the composition multiplies the nominal yield by that
combined factor. -/
theorem compose_scale_factor_is_product {α ι : Type} [CommMonoid α]
    (ts : ModTreeList α ι) (t : ModTree α ι) (h : composeInit ts = Except.ok t)
    (sumw : ι → α) :
    (∀ i, ModTree.scale_factor t sumw i =
      ((ModTree.leaves t).map (fun m => m.scale_factor sumw i)).prod) ∧
    (∀ i, ModTree.call t sumw i = sumw i * ModTree.scale_factor t sumw i) := by
  obtain ⟨rfl, hnodup⟩ := composeInit_ok h
  constructor
  · intro i
    rw [ModTree.scale_factor,
      ModTree.scaleFactors_eq _ sumw (show (ModTree.comp ts).names.Nodup by
        rw [ModTree.names]; exact hnodup),
      List.map_map]
    rfl
  · intro i
    rw [ModTree.call, mul_comm]

/-- Witness for C2: a concrete nested composition (an `unconstrained` leaf
next to a nested composition holding a `gauss` leaf) at a concrete yield. -/
theorem compose_scale_factor_is_product_witness :
    ModTree.scale_factor tOk (fun _ => (10 : ℚ)) () =
      ((ModTree.leaves tOk).map (fun m => m.scale_factor (fun _ => (10 : ℚ)) ())).prod :=
  (compose_scale_factor_is_product tsOk tOk rfl (fun _ => (10 : ℚ))).1 ()

/-- C1 (code-bug evidence): evaluating the NLL of the concrete one-parameter
model at the out-of-bounds value `mu = 101` (bounds `[0, 100]`) yields
`-infinity`, not the `+infinity` the specification states: the `+infinity`
boundary penalty is added inside the per-bin sum that is subsequently negated
(`return -jnp.sum(nll, axis=-1)`). -/
theorem nll_out_of_bounds_is_neg_infinity :
    NLL_call (fun _ _ => 0) demoModel [60] [("mu", 101)] = (⊥ : EReal) ∧
    (⊥ : EReal) ≠ (⊤ : EReal) := by
  constructor
  · rw [NLL_call]
    norm_num [Model.update, demoModel, pMu, Parameter.update, Parameter.init,
      Model.expectation, Model.nll_boundary_penalty, Parameter.boundary_penalty,
      Model.parameter_constraints, List.lookup]
  · exact bot_ne_top

theorem Hessian_call_congr (m : Model) (d2 : List (String × ℚ) → String → String → ℚ)
    {v1 v2 : List (String × ℚ)}
    (h : (if v1.isEmpty then m.parameter_values else v1) =
      (if v2.isEmpty then m.parameter_values else v2)) :
    Hessian_call m d2 v1 = Hessian_call m d2 v2 := by
  rw [Hessian_call, Hessian_call, h]

/-- C8: the Hessian is a square matrix whose dimension is the number of model
parameters — both when the values mapping is omitted (empty), in which case
the model's stored parameter values are the evaluation point, and for any
complete values mapping. -/
theorem hessian_square_dim_and_default (m : Model)
    (d2 : List (String × ℚ) → String → String → ℚ) (values : List (String × ℚ)) :
    (values = [] → Hessian_call m d2 values = Hessian_call m d2 m.parameter_values) ∧
    (values = [] ∨ values.length = m.parameters.length →
      (Hessian_call m d2 values).1 = m.parameters.length) := by
  constructor
  · rintro rfl
    refine Hessian_call_congr m d2 ?_
    simp
  · intro h
    rw [Hessian_call]
    by_cases hv : values.isEmpty = true
    · simp [hv, Model.parameter_values]
    · simp only [hv, if_false, Bool.false_eq_true]
      rcases h with rfl | h
      · simp at hv
      · exact h

/-- Witness for C8: the concrete one-parameter model with omitted values. -/
theorem hessian_square_dim_and_default_witness :
    (Hessian_call demoModel demoD2 []).1 = demoModel.parameters.length :=
  (hessian_square_dim_and_default demoModel demoD2 []).2 (Or.inl rfl)

/-- C5: the covariance equals the matrix inverse of the negated Hessian
whenever that matrix is non-singular, and the singular case surfaces the
numeric failure (`none`) to the caller instead of silently masking it. -/
theorem covmatrix_inverse_neg_hessian (m : Model)
    (d2 : List (String × ℚ) → String → String → ℚ) (values : List (String × ℚ)) :
    ((-(Hessian_call m d2 values).2).det ≠ 0 →
      CovMatrix_call m d2 values =
        some ⟨(Hessian_call m d2 values).1, (-(Hessian_call m d2 values).2)⁻¹⟩ ∧
      -(Hessian_call m d2 values).2 * (-(Hessian_call m d2 values).2)⁻¹ = 1 ∧
      (-(Hessian_call m d2 values).2)⁻¹ * -(Hessian_call m d2 values).2 = 1) ∧
    ((-(Hessian_call m d2 values).2).det = 0 → CovMatrix_call m d2 values = none) := by
  constructor
  · intro h
    refine ⟨?_, Matrix.mul_nonsing_inv _ (isUnit_iff_ne_zero.mpr h),
      Matrix.nonsing_inv_mul _ (isUnit_iff_ne_zero.mpr h)⟩
    show (jnp_linalg_inv (-(Hessian_call m d2 values).2)).map
        (fun Hinv =>
          (⟨(Hessian_call m d2 values).1, Hinv⟩ : Σ k : ℕ, Matrix (Fin k) (Fin k) ℚ)) =
      some ⟨(Hessian_call m d2 values).1, (-(Hessian_call m d2 values).2)⁻¹⟩
    rw [jnp_linalg_inv, if_neg h]
    rfl
  · intro h
    show (jnp_linalg_inv (-(Hessian_call m d2 values).2)).map
        (fun Hinv =>
          (⟨(Hessian_call m d2 values).1, Hinv⟩ : Σ k : ℕ, Matrix (Fin k) (Fin k) ℚ)) =
      none
    rw [jnp_linalg_inv, if_pos h]
    rfl

/-- Witness for C5: the concrete one-parameter model, whose negated Hessian
stand-in is the non-singular 1x1 identity. -/
theorem covmatrix_inverse_neg_hessian_witness :
    CovMatrix_call demoModel demoD2 [("mu", 2)] =
      some ⟨(Hessian_call demoModel demoD2 [("mu", 2)]).1,
        (-(Hessian_call demoModel demoD2 [("mu", 2)]).2)⁻¹⟩ :=
  ((covmatrix_inverse_neg_hessian demoModel demoD2 [("mu", 2)]).1 (by
    show (-(Matrix.of (fun _ _ : Fin 1 => (-1 : ℚ)))).det ≠ 0
    norm_num [Matrix.det_fin_one, Matrix.neg_apply, Matrix.of_apply])).1

/-- C9: the toy sampler is a pure function of the parameter values and the
explicit random key: the key enters the computation only through the
multivariate-normal primitive, so keys with equal sampling behaviour — in
particular identical keys — produce identical toys, and no other (global)
random state exists to be consulted. -/
theorem sampleToy_pure_in_key (m : Model)
    (d2 : List (String × ℚ) → String → String → ℚ)
    (mvn : ℕ → List ℚ → (Σ k : ℕ, Matrix (Fin k) (Fin k) ℚ) → List ℚ)
    (values : List (String × ℚ)) (k1 k2 : ℕ) (h : mvn k1 = mvn k2) :
    SampleToy_call m d2 mvn values k1 = SampleToy_call m d2 mvn values k2 := by
  rw [SampleToy_call, SampleToy_call, h]

/-- Witness for C9: two invocations with the identical key `1234` on the
concrete model produce the identical toy. -/
theorem sampleToy_pure_in_key_witness :
    SampleToy_call demoModel demoD2 demoMvn [] 1234 =
      SampleToy_call demoModel demoD2 demoMvn [] 1234 :=
  sampleToy_pure_in_key demoModel demoD2 demoMvn [] 1234 1234 rfl
